import Mathlib

/-
Verification development for
arch/unitroot/critical_values/simulation/adf_z_critical_values_simulation_large_cluster.py

Shallow embedding.  The pseudo-random source is modelled as a stream of
rational draws consumed in row-major (C) order, which is how the legacy
numpy RandomState fills an array from its normal stream; a seeded
generator is the pair of its stream and its current position.  Two-d
ndarrays are modelled as shape-carrying matrices over the rationals.
Python floats are modelled as exact rationals.
-/

namespace Arch

/-- A pseudo-random generator state: the seed-determined stream of
standard-normal draws together with the current read position.  Models a
numpy RandomState after seeding. -/
structure RNG where
  stream : Nat → ℚ
  pos : Nat

/-- Shape-carrying matrix of rationals, modelling a 2-d numpy array. -/
structure Mat where
  rows : Nat
  cols : Nat
  entry : Nat → Nat → ℚ

/-- Sum of the first k values of f. -/
def sumTo (f : Nat → ℚ) (k : Nat) : ℚ := ((List.range k).map f).sum

/-- Advance a generator by k consumed draws. -/
def RNG.advance (g : RNG) (k : Nat) : RNG := ⟨g.stream, g.pos + k⟩

/-- standard_normal((r, c)) on generator g: entries are taken from the
stream in row-major order, entry (i, j) being draw number i * c + j from
the current position. -/
def Mat.draw (g : RNG) (r c : Nat) : Mat :=
  ⟨r, c, fun i j => g.stream (g.pos + (i * c + j))⟩

/-- cumsum(y, axis=0): entry (i, j) is the sum of rows 0..i of column j. -/
def Mat.cumsum0 (A : Mat) : Mat :=
  ⟨A.rows, A.cols, fun i j => sumTo (fun k => A.entry k j) (i + 1)⟩

/-- The slice y[k:, :]. -/
def Mat.dropRows (A : Mat) (k : Nat) : Mat :=
  ⟨A.rows - k, A.cols, fun i j => A.entry (i + k) j⟩

/-- The slice y[:-1, :]. -/
def Mat.initRows (A : Mat) : Mat := ⟨A.rows - 1, A.cols, A.entry⟩

/-- Matrix transpose. -/
def Mat.transpose (A : Mat) : Mat := ⟨A.cols, A.rows, fun i j => A.entry j i⟩

/-- dot(A, B). -/
def Mat.mul (A B : Mat) : Mat :=
  ⟨A.rows, B.cols, fun i j => sumTo (fun k => A.entry i k * B.entry k j) A.cols⟩

/-- Entrywise difference A - B. -/
def Mat.sub (A B : Mat) : Mat :=
  ⟨A.rows, A.cols, fun i j => A.entry i j - B.entry i j⟩

/-- The pair of indices of {0, 1, 2} other than i, used for 3x3 minors. -/
def other2 (i : Nat) : Nat × Nat :=
  if i = 0 then (1, 2) else if i = 1 then (0, 2) else (0, 1)

/-- 2x2 minor of a 3x3 matrix obtained by deleting row i and column j. -/
def minor3 (A : Mat) (i j : Nat) : ℚ :=
  let r := other2 i
  let c := other2 j
  A.entry r.1 c.1 * A.entry r.2 c.2 - A.entry r.1 c.2 * A.entry r.2 c.1

/-- Cofactor of a 3x3 matrix at (i, j). -/
def cof3 (A : Mat) (i j : Nat) : ℚ :=
  (if (i + j) % 2 = 0 then 1 else -1) * minor3 A i j

/-- Determinant of a k x k matrix for k <= 3 (the only sizes that occur:
the normal matrices of the trend designs have 0 to 3 columns). -/
def matDet (A : Mat) : ℚ :=
  match A.rows with
  | 0 => 1
  | 1 => A.entry 0 0
  | 2 => A.entry 0 0 * A.entry 1 1 - A.entry 0 1 * A.entry 1 0
  | 3 =>
      A.entry 0 0 * (A.entry 1 1 * A.entry 2 2 - A.entry 1 2 * A.entry 2 1)
        - A.entry 0 1 * (A.entry 1 0 * A.entry 2 2 - A.entry 1 2 * A.entry 2 0)
        + A.entry 0 2 * (A.entry 1 0 * A.entry 2 1 - A.entry 1 1 * A.entry 2 0)
  | _ => 0

/-- Adjugate of a k x k matrix for k <= 3. -/
def matAdj (A : Mat) : Mat :=
  match A.rows with
  | 1 => ⟨1, 1, fun _ _ => 1⟩
  | 2 => ⟨2, 2, fun i j =>
      if i = 0 ∧ j = 0 then A.entry 1 1
      else if i = 0 ∧ j = 1 then -A.entry 0 1
      else if i = 1 ∧ j = 0 then -A.entry 1 0
      else A.entry 0 0⟩
  | 3 => ⟨3, 3, fun i j => cof3 A j i⟩
  | k => ⟨k, k, fun _ _ => 0⟩

/-- Inverse of a k x k matrix for k <= 3, by the adjugate formula. -/
def matInv (A : Mat) : Mat :=
  ⟨A.rows, A.rows, fun i j => (matAdj A).entry i j / matDet A⟩

/-- numpy.linalg.pinv on the design matrices used here.  Modelled by the
normal-equation formula (Zt Z)⁻¹ Zt, which coincides with the
Moore-Penrose pseudo-inverse computed by numpy whenever Z has full column
rank; every design matrix built by the simulation (constant, constant
plus trend, constant plus trend plus trend squared) has full column rank
once the series is at least as long as the number of regressors. -/
def pinv (Z : Mat) : Mat :=
  (matInv ((Mat.transpose Z).mul Z)).mul (Mat.transpose Z)

/-- The tuple of trend labels at line 124 of the source. -/
def trends : List String := ["nc", "c", "ct", "ctt"]

/-- Lines 88-95: the optional deterministic regressor matrix z built from
the trend label; trend values outside the three detrending labels leave
z as None.  For the constant-and-trend designs row i is
(1, i+1) and (1, i+1, (i+1)^2) respectively, matching
vstack((ones(nobs), arange(1, nobs + 1))).T and its quadratic variant.
The Nat argument nobs = n - 1 truncates at n = 0, where the source
instead raises a negative-dimension ValueError from ones((-1, 1)) in the
three detrending branches; every theorem touching those branches
therefore assumes 1 <= n (the None branch is faithful for all n). -/
def trendZ (trend : String) (nobs : Nat) : Option Mat :=
  if trend = "c" then some ⟨nobs, 1, fun _ _ => 1⟩
  else if trend = "ct" then
    some ⟨nobs, 2, fun i j => if j = 0 then 1 else (i : ℚ) + 1⟩
  else if trend = "ctt" then
    some ⟨nobs, 3, fun i j =>
      if j = 0 then 1 else if j = 1 then (i : ℚ) + 1 else ((i : ℚ) + 1) * ((i : ℚ) + 1)⟩
  else none

/-- Line 97: y = standard_normal((n + 50, b)). -/
def adfDraw (n b : Nat) (g : RNG) : Mat := Mat.draw g (n + 50) b

/-- Lines 98-99: y = cumsum(y, axis=0); y = y[50:, :]. -/
def adfPath (n b : Nat) (g : RNG) : Mat := ((adfDraw n b g).cumsum0).dropRows 50

/-- Line 100: lhs = y[1:, :]. -/
def adfLhs0 (n b : Nat) (g : RNG) : Mat := (adfPath n b g).dropRows 1

/-- Line 101: rhs = y[:-1, :]. -/
def adfRhs0 (n b : Nat) (g : RNG) : Mat := (adfPath n b g).initRows

/-- Lines 103-107: x - dot(z, dot(pinv(z), x)), the OLS residualization of
x on the regressors z using one pseudo-inverse shared by all columns. -/
def residualize (z x : Mat) : Mat := x.sub (z.mul ((pinv z).mul x))

/-- The left-hand series after the optional residualization step. -/
def adfLhs (n : Nat) (trend : String) (b : Nat) (g : RNG) : Mat :=
  match trendZ trend (n - 1) with
  | some z => residualize z (adfLhs0 n b g)
  | none => adfLhs0 n b g

/-- The lagged right-hand series after the optional residualization step. -/
def adfRhs (n : Nat) (trend : String) (b : Nat) (g : RNG) : Mat :=
  match trendZ trend (n - 1) with
  | some z => residualize z (adfRhs0 n b g)
  | none => adfRhs0 n b g

/-- Line 109: xpy = sum(rhs * lhs, 0), the raw non-centered cross-product
of lag and lead for column j, summed over the time axis. -/
def adfXpy (n : Nat) (trend : String) (b : Nat) (g : RNG) (j : Nat) : ℚ :=
  sumTo (fun i => (adfRhs n trend b g).entry i j * (adfLhs n trend b g).entry i j)
    (adfRhs n trend b g).rows

/-- Line 110: xpx = sum(rhs ** 2.0, 0), the raw second moment of the lag
for column j, summed over the time axis. -/
def adfXpx (n : Nat) (trend : String) (b : Nat) (g : RNG) (j : Nat) : ℚ :=
  sumTo (fun i => (adfRhs n trend b g).entry i j * (adfRhs n trend b g).entry i j)
    (adfRhs n trend b g).rows

/-- Lines 111-113: the statistic of column j,
nobs * (xpy / xpx - 1) with nobs = lhs.shape[0] after residualization. -/
def adfStat (n : Nat) (trend : String) (b : Nat) (g : RNG) (j : Nat) : ℚ :=
  ((adfLhs n trend b g).rows : ℚ) *
    (adfXpy n trend b g j / adfXpx n trend b g j - 1)

/-- Lines 77-114, called with an explicit generator: the vector of the b
statistics together with the advanced generator (the draw consumed
(n + 50) * b values of the stream). -/
def adf_simulation (n : Nat) (trend : String) (b : Nat) (g : RNG) : List ℚ × RNG :=
  ((List.range b).map (adfStat n trend b g), g.advance ((n + 50) * b))

/-- Lines 77-85 with the optional rng argument.  When rng is None the
source reseeds the global generator with seed 0 and draws from it, so
every such call reads the fixed seed-0 global stream gs from position 0
and returns no generator; when rng is a generator the call threads it. -/
def adfSimulationOpt (gs : Nat → ℚ) (n : Nat) (trend : String) (b : Nat) :
    Option RNG → List ℚ × Option RNG
  | none => ((adf_simulation n trend b ⟨gs, 0⟩).1, none)
  | some g => ((adf_simulation n trend b g).1, some (adf_simulation n trend b g).2)

/-- Line 62: block_size = int(2 ** 20.0 * MAX_MEMORY_SIZE / (8.0 * n)),
with int() truncating the nonnegative quotient downward.  Faithful for
n at least 1; at n = 0 the source raises ZeroDivisionError while the
rational division by zero yields 0 here, so no theorem below relies on
the n = 0 value. -/
def blockSize (n : Nat) (maxMem : ℚ) : Nat :=
  (⌊2 ^ 20 * maxMem / (8 * (n : ℚ))⌋).toNat

/-- The block sizes produced by the loop at lines 63-72: iteration j of
range(0, b, bs) has b - bs * j draws remaining and runs
min(bs, remaining); there are ceil(b / bs) iterations. -/
def blockCounts (bs b : Nat) : List Nat :=
  (List.range ((b + bs - 1) / bs)).map fun j => min bs (b - bs * j)

/-- The loop body of lines 63-72: run adf_simulation once per block,
threading the generator, and concatenate the blocks in order (the slice
assignments res[st:en] fill disjoint consecutive segments of res). -/
def runBlocks (gs : Nat → ℚ) (n : Nat) (trend : String) :
    List Nat → Option RNG → List ℚ × Option RNG
  | [], r => ([], r)
  | c :: rest, r =>
      let step := adfSimulationOpt gs n trend c r
      let tail := runBlocks gs n trend rest step.2
      (step.1 ++ tail.1, tail.2)

/-- Lines 52-74: the memory-bounded batch runner.  rng = RandomState();
rng.seed(rng_seed) is modelled by the seed-determined stream at position
0; maxMem is the module constant MAX_MEMORY_SIZE (100 in the source),
made explicit because the claims vary it; gs is the seed-0 global stream
that only the rng = None fallback of adf_simulation could read. -/
def wrapper (gs : Nat → ℚ) (n : Nat) (trend : String) (b : Nat)
    (stream : Nat → ℚ) (maxMem : ℚ) : List ℚ :=
  (runBlocks gs n trend (blockCounts (blockSize n maxMem) b) (some ⟨stream, 0⟩)).1

/-- numpy.percentile with the default linear interpolation, on a sorted
list: with m values and h = q * (m - 1) / 100, the result interpolates
between the values at floor(h) and floor(h) + 1 with weight h - floor(h)
(at the top edge the second index is out of range and the weight is 0,
so the default value makes the difference vanish). -/
def interpAt (s : List ℚ) (h : ℚ) : ℚ :=
  s.getD (⌊h⌋).toNat 0 +
    (h - ((⌊h⌋).toNat : ℚ)) *
      (s.getD ((⌊h⌋).toNat + 1) (s.getD (⌊h⌋).toNat 0) - s.getD (⌊h⌋).toNat 0)

/-- numpy.percentile(x, q) with the default linear interpolation. -/
def percentile (x : List ℚ) (q : ℚ) : ℚ :=
  interpAt (List.insertionSort (fun a b => a ≤ b) x)
    (q * ((x.length - 1 : Nat) : ℚ) / 100)

/-- Line 26: number of replications per cell. -/
def EX_NUM : Nat := 500

/-- Line 28: draws per replication. -/
def EX_SIZE : Nat := 200000

/-- Line 131: percentiles = list(arange(0.5, 100.0, 0.5)), the 199 levels
0.5, 1.0, ..., 99.5. -/
def percentilesGrid : List ℚ :=
  (List.range 199).map fun k => 1 / 2 + (k : ℚ) * (1 / 2)

/-- Lines 125-129: the sample lengths, reversed to descending order. -/
def T_lengths : List Nat :=
  [2000, 1400, 1200, 1000, 900, 800, 700, 600, 500, 450, 400, 350, 300,
   250, 200, 180, 160, 140, 120, 100, 90, 80, 70, 60, 50, 45, 40, 35, 30, 25, 20]

/-- m = T.shape[0]. -/
def numLengths : Nat := T_lengths.length

/-- Lines 147-148: the r-th unit of work submitted by map_async for a cell
(sample length t, trend tr) receives the r-th elements of the four
argument lists [t] * EX_NUM, [tr] * EX_NUM, [EX_SIZE] * EX_NUM and seeds,
where seeds is the one master seed list built once at line 133. -/
def submittedUnit (t : Nat) (tr : String) (master : List Nat) (r : Nat) :
    Nat × String × Nat × Nat :=
  ((List.replicate EX_NUM t).getD r 0,
   ((List.replicate EX_NUM tr).getD r "",
    ((List.replicate EX_NUM EX_SIZE).getD r 0,
     master.getD r 0)))

/-- The results table of one trend: percentile index, length index and
replication index to an optional value, none being the NaN sentinel that
line 136 fills the freshly allocated array with. -/
def Table : Type := Nat → Nat → Nat → Option ℚ

/-- Line 136: results = zeros((len(percentiles), m, EX_NUM)) * nan. -/
def resultsInit : Table := fun _ _ _ => none

/-- Number of percentile levels. -/
def numPercentiles : Nat := percentilesGrid.length

/-- Lines 164-165: quantiles = lmap(lambda x: percentile(x, percentiles),
out); results[:, i, :] = array(quantiles).T.  Writes every in-bounds cell
of the slice for length index i, entry (p, r) being the p-th percentile
level of the draw vector of replication r. -/
def writeSlice (tbl : Table) (i : Nat) (reps : Nat → List ℚ) : Table :=
  fun p iIdx r =>
    if iIdx = i ∧ p < numPercentiles ∧ r < EX_NUM then
      some (percentile (reps r) (percentilesGrid.getD p 0))
    else tbl p iIdx r

/-- One pass of the loop body at lines 139-168 for length index i: reduce
the collected replication vectors to the percentile slice, write it into
the table, and append the whole table to the list of persisted
checkpoints (savez at line 167 runs once per completed length). -/
def driverStep (out : Nat → Nat → List ℚ) (st : Table × List Table) (i : Nat) :
    Table × List Table :=
  let t2 := writeSlice st.1 i (out i)
  (t2, st.2 ++ [t2])

/-- The driver loop for one trend after the first k sample lengths have
completed, out being the pool results (length index and replication index
to the replication draw vector). -/
def driverRun (out : Nat → Nat → List ℚ) (k : Nat) : Table × List Table :=
  (List.range k).foldl (driverStep out) (resultsInit, [])

/-- The controller-side and view-side state that clear_cache touches. -/
structure ClientState where
  outstanding : List Nat
  controllerResults : List (Nat × ℚ)
  results : List (Nat × ℚ)
  metadata : List (Nat × ℚ)
  history : List Nat
  digestHistory : List Nat

/-- View-side retained state. -/
structure ViewState where
  results : List (Nat × ℚ)
  history : List Nat

/-- Lines 40-49: assert that no tasks are outstanding (a failed assertion
is the None outcome), then purge every retained result and history
container on the client and the view. -/
def clear_cache (client : ClientState) (view : ViewState) :
    Option (ClientState × ViewState) :=
  if client.outstanding = [] then
    some ({ outstanding := client.outstanding, controllerResults := [],
            results := [], metadata := [], history := [], digestHistory := [] },
          { results := [], history := [] })
  else none

/-- A sorted list read through getD with default 0 is monotone on
in-range indices. -/
lemma sorted_getD_mono (s : List ℚ) (hs : List.Sorted (fun a b : ℚ => a ≤ b) s)
    {a b : Nat} (hab : a ≤ b) (hb : b < s.length) : s.getD a 0 ≤ s.getD b 0 := by
  have ha : a < s.length := Nat.lt_of_le_of_lt hab hb
  rw [List.getD_eq_getElem s 0 ha, List.getD_eq_getElem s 0 hb]
  rcases Nat.eq_or_lt_of_le hab with h | h
  · subst h
    exact le_refl _
  · have := hs.rel_get_of_lt (a := ⟨a, ha⟩) (b := ⟨b, hb⟩) (Fin.mk_lt_mk.mpr h)
    simpa [List.get_eq_getElem] using this

/-- In a sorted list the interpolation target at index i + 1 (defaulting
to the value at i when out of range) is at least the value at i. -/
lemma sorted_getD_next (s : List ℚ) (hs : List.Sorted (fun a b : ℚ => a ≤ b) s)
    {a : Nat} (_ : a < s.length) :
    s.getD a 0 ≤ s.getD (a + 1) (s.getD a 0) := by
  by_cases h2 : a + 1 < s.length
  · rw [List.getD_eq_getElem s _ h2, ← List.getD_eq_getElem s 0 h2]
    exact sorted_getD_mono s hs (Nat.le_succ a) h2
  · rw [List.getD_eq_default _ _ (Nat.le_of_not_lt h2)]

/-- Core monotonicity of the piecewise-linear interpolation on a sorted
list, stated with the two cell indices explicit. -/
lemma interpAt_pieces_mono (s : List ℚ) (hs : List.Sorted (fun a b : ℚ => a ≤ b) s)
    (i i2 : Nat) (h h2 : ℚ) (hile : (i : ℚ) ≤ h) (hilt : h < (i : ℚ) + 1)
    (hi2le : (i2 : ℚ) ≤ h2) (hhh : h ≤ h2) (hii2 : i ≤ i2) (hi2m : i2 < s.length) :
    s.getD i 0 + (h - (i : ℚ)) * (s.getD (i + 1) (s.getD i 0) - s.getD i 0) ≤
      s.getD i2 0 + (h2 - (i2 : ℚ)) * (s.getD (i2 + 1) (s.getD i2 0) - s.getD i2 0) := by
  have him : i < s.length := Nat.lt_of_le_of_lt hii2 hi2m
  have hcn : s.getD i 0 ≤ s.getD (i + 1) (s.getD i 0) := sorted_getD_next s hs him
  have hcn2 : s.getD i2 0 ≤ s.getD (i2 + 1) (s.getD i2 0) := sorted_getD_next s hs hi2m
  rcases Nat.eq_or_lt_of_le hii2 with heq | hlt
  · subst heq
    have hmul := mul_le_mul_of_nonneg_right (sub_le_sub_right hhh (i : ℚ))
      (sub_nonneg.mpr hcn)
    linarith
  · have hi1m : i + 1 < s.length := Nat.lt_of_le_of_lt (Nat.succ_le_of_lt hlt) hi2m
    have step1 : s.getD i 0 +
        (h - (i : ℚ)) * (s.getD (i + 1) (s.getD i 0) - s.getD i 0) ≤
        s.getD (i + 1) (s.getD i 0) := by
      have hf1 : h - (i : ℚ) ≤ 1 := by linarith
      nlinarith [mul_nonneg (sub_nonneg.mpr hf1) (sub_nonneg.mpr hcn)]
    have step2 : s.getD (i + 1) (s.getD i 0) ≤ s.getD i2 0 := by
      rw [List.getD_eq_getElem s _ hi1m, ← List.getD_eq_getElem s 0 hi1m]
      exact sorted_getD_mono s hs (Nat.succ_le_of_lt hlt) hi2m
    have step3 : s.getD i2 0 ≤ s.getD i2 0 +
        (h2 - (i2 : ℚ)) * (s.getD (i2 + 1) (s.getD i2 0) - s.getD i2 0) := by
      have hf2 : 0 ≤ h2 - (i2 : ℚ) := by linarith
      nlinarith [mul_nonneg hf2 (sub_nonneg.mpr hcn2)]
    linarith

/-- The linear interpolation of a sorted list is monotone in the
fractional position over the valid range. -/
lemma interpAt_mono (s : List ℚ) (hs : List.Sorted (fun a b : ℚ => a ≤ b) s)
    (hlen : 1 ≤ s.length) {h h2 : ℚ} (h0 : 0 ≤ h) (hhh : h ≤ h2)
    (htop : h2 ≤ ((s.length - 1 : Nat) : ℚ)) : interpAt s h ≤ interpAt s h2 := by
  have h20 : 0 ≤ h2 := le_trans h0 hhh
  have hfl0 : 0 ≤ ⌊h⌋ := Int.floor_nonneg.mpr h0
  have hfl20 : 0 ≤ ⌊h2⌋ := Int.floor_nonneg.mpr h20
  have hcast : (((⌊h⌋).toNat : Nat) : ℚ) = ((⌊h⌋ : ℤ) : ℚ) := by
    exact_mod_cast congrArg (fun z : ℤ => (z : ℚ)) (Int.toNat_of_nonneg hfl0)
  have hcast2 : (((⌊h2⌋).toNat : Nat) : ℚ) = ((⌊h2⌋ : ℤ) : ℚ) := by
    exact_mod_cast congrArg (fun z : ℤ => (z : ℚ)) (Int.toNat_of_nonneg hfl20)
  have hi2top : (⌊h2⌋).toNat ≤ s.length - 1 := by
    have hq : (((⌊h2⌋).toNat : Nat) : ℚ) ≤ ((s.length - 1 : Nat) : ℚ) := by
      rw [hcast2]
      exact le_trans (Int.floor_le h2) htop
    exact_mod_cast hq
  unfold interpAt
  refine interpAt_pieces_mono s hs _ _ h h2 ?_ ?_ ?_ hhh ?_ ?_
  · rw [hcast]
    exact Int.floor_le h
  · rw [hcast]
    exact Int.lt_floor_add_one h
  · rw [hcast2]
    exact Int.floor_le h2
  · exact Int.toNat_le_toNat (Int.floor_mono hhh)
  · omega

/-- numpy.percentile is monotone in the requested level. -/
lemma percentile_mono (x : List ℚ) (hx : x ≠ []) {p q : ℚ} (hp : 0 ≤ p)
    (hpq : p ≤ q) (hq : q ≤ 100) : percentile x p ≤ percentile x q := by
  have hsl : (List.insertionSort (fun a b : ℚ => a ≤ b) x).length = x.length :=
    List.length_insertionSort _ x
  have hxlen : 1 ≤ x.length := List.length_pos.mpr hx
  have hc0 : (0 : ℚ) ≤ ((x.length - 1 : Nat) : ℚ) := Nat.cast_nonneg _
  unfold percentile
  apply interpAt_mono _ (List.sorted_insertionSort _ x) (by omega)
  · exact div_nonneg (mul_nonneg hp hc0) (by norm_num)
  · apply (div_le_div_iff_of_pos_right (by norm_num : (0 : ℚ) < 100)).mpr
    exact mul_le_mul_of_nonneg_right hpq hc0
  · rw [hsl]
    rw [div_le_iff₀ (by norm_num : (0 : ℚ) < 100)]
    nlinarith

/-- Splitting off the first iteration of the block loop: for a positive
block size and a positive number of remaining draws, the first block has
min bs b draws and the rest is the block list for b - bs draws. -/
lemma blockCounts_cons {bs b : Nat} (hbs : 1 ≤ bs) (hb : 1 ≤ b) :
    blockCounts bs b = min bs b :: blockCounts bs (b - bs) := by
  unfold blockCounts
  rcases Nat.le_total b bs with hle | hge
  · have h1 : (b + bs - 1) / bs = 1 := by
      apply Nat.div_eq_of_lt_le
      · omega
      · omega
    have h0 : (b - bs + bs - 1) / bs = 0 := Nat.div_eq_of_lt (by omega)
    rw [h1, h0]
    rfl
  · have hK : b + bs - 1 = (b - bs + bs - 1) + bs := by omega
    have h1 : (b + bs - 1) / bs = (b - bs + bs - 1) / bs + 1 := by
      rw [hK]
      exact Nat.add_div_right _ (by omega)
    rw [h1, List.range_succ_eq_map, List.map_cons, List.map_map]
    refine congrArg₂ _ (by simp) ?_
    apply List.map_congr_left
    intro j _
    simp only [Function.comp_apply]
    congr 1
    rw [Nat.mul_succ, Nat.add_comm (bs * j) bs, Nat.sub_sub]

/-- The block counts of the loop partition the requested total exactly. -/
lemma blockCounts_sum {bs : Nat} (hbs : 1 ≤ bs) : ∀ b, (blockCounts bs b).sum = b := by
  intro b
  induction b using Nat.strong_induction_on with
  | _ b ih =>
    rcases Nat.eq_zero_or_pos b with hb0 | hbpos
    · subst hb0
      unfold blockCounts
      rw [Nat.div_eq_of_lt (by omega)]
      rfl
    · rw [blockCounts_cons hbs hbpos, List.sum_cons, ih (b - bs) (by omega)]
      omega

/-- Running the block loop from an explicit generator never consults the
global seed-0 stream, and it returns the same stream advanced by exactly
(n + 50) draws per produced statistic, one continuous pass with no reset
between blocks. -/
lemma runBlocks_threads (n : Nat) (trend : String) :
    ∀ (counts : List Nat) (gs gs2 : Nat → ℚ) (g : RNG),
      (runBlocks gs n trend counts (some g)).1 =
          (runBlocks gs2 n trend counts (some g)).1 ∧
        (runBlocks gs n trend counts (some g)).2 =
          some ⟨g.stream, g.pos + (n + 50) * counts.sum⟩ := by
  intro counts
  induction counts with
  | nil =>
    intro gs gs2 g
    constructor
    · rfl
    · show some g = some ⟨g.stream, g.pos + (n + 50) * 0⟩
      rw [Nat.mul_zero, Nat.add_zero]
  | cons c rest ih =>
    intro gs gs2 g
    have hstep : ∀ gsx : Nat → ℚ,
        adfSimulationOpt gsx n trend c (some g) =
          ((adf_simulation n trend c g).1, some (g.advance ((n + 50) * c))) := by
      intro gsx
      rfl
    constructor
    · show (adfSimulationOpt gs n trend c (some g)).1 ++
          (runBlocks gs n trend rest (adfSimulationOpt gs n trend c (some g)).2).1 =
        (adfSimulationOpt gs2 n trend c (some g)).1 ++
          (runBlocks gs2 n trend rest (adfSimulationOpt gs2 n trend c (some g)).2).1
      rw [hstep gs, hstep gs2]
      exact congrArg _ ((ih gs gs2 (g.advance ((n + 50) * c))).1)
    · show (runBlocks gs n trend rest (adfSimulationOpt gs n trend c (some g)).2).2 =
        some ⟨g.stream, g.pos + (n + 50) * (c :: rest).sum⟩
      rw [hstep gs]
      show (runBlocks gs n trend rest (some (g.advance ((n + 50) * c)))).2 = _
      rw [(ih gs gs (g.advance ((n + 50) * c))).2]
      show some (RNG.mk g.stream (g.pos + (n + 50) * c + (n + 50) * rest.sum)) =
        some (RNG.mk g.stream (g.pos + (n + 50) * (c :: rest).sum))
      have harith : g.pos + (n + 50) * c + (n + 50) * rest.sum =
          g.pos + (n + 50) * (c :: rest).sum := by
        rw [List.sum_cons, Nat.mul_add]
        omega
      rw [harith]

/-- Unfolding one pass of the driver loop. -/
lemma driverRun_succ (out : Nat → Nat → List ℚ) (k : Nat) :
    driverRun out (k + 1) = driverStep out (driverRun out k) k := by
  unfold driverRun
  rw [List.range_succ, List.foldl_append]
  rfl

/-- Slices of lengths not yet processed are still entirely the sentinel. -/
lemma driverRun_sentinel (out : Nat → Nat → List ℚ) :
    ∀ k i, k ≤ i → ∀ p r, (driverRun out k).1 p i r = none := by
  intro k
  induction k with
  | zero => intro i _ p r; rfl
  | succ k ih =>
    intro i hk p r
    rw [driverRun_succ]
    show writeSlice (driverRun out k).1 k (out k) p i r = none
    unfold writeSlice
    rw [if_neg]
    · exact ih i (by omega) p r
    · rintro ⟨h1, -⟩
      omega

/-- Slices of completed lengths are fully populated. -/
lemma driverRun_populated (out : Nat → Nat → List ℚ) :
    ∀ k p i r, p < numPercentiles → r < EX_NUM → i < k →
      ((driverRun out k).1 p i r).isSome = true := by
  intro k
  induction k with
  | zero => intro p i r _ _ h; omega
  | succ k ih =>
    intro p i r hp hr hik
    rw [driverRun_succ]
    show (writeSlice (driverRun out k).1 k (out k) p i r).isSome = true
    unfold writeSlice
    by_cases hk : i = k
    · rw [if_pos ⟨hk, hp, hr⟩]
      rfl
    · rw [if_neg]
      · exact ih p i r hp hr (by omega)
      · rintro ⟨h1, -⟩
        exact hk h1

/-- One checkpoint is persisted per completed sample length. -/
lemma driverRun_saved_length (out : Nat → Nat → List ℚ) :
    ∀ k, (driverRun out k).2.length = k := by
  intro k
  induction k with
  | zero => rfl
  | succ k ih =>
    rw [driverRun_succ]
    show ((driverRun out k).2 ++ [_]).length = k + 1
    rw [List.length_append, ih]
    rfl

/-- The checkpoint written after completing length index j is exactly the
table state once the first j + 1 lengths are done. -/
lemma driverRun_saved_getD (out : Nat → Nat → List ℚ) :
    ∀ k j, j < k →
      (driverRun out k).2.getD j resultsInit = (driverRun out (j + 1)).1 := by
  intro k
  induction k with
  | zero => intro j h; omega
  | succ k ih =>
    intro j hj
    rw [driverRun_succ]
    show ((driverRun out k).2 ++
        [writeSlice (driverRun out k).1 k (out k)]).getD j resultsInit = _
    rcases Nat.lt_or_ge j k with hjk | hjk
    · rw [List.getD_append _ _ _ _ (by rw [driverRun_saved_length]; exact hjk)]
      exact ih j hjk
    · have hjeq : j = k := by omega
      subst hjeq
      rw [List.getD_append_right _ _ _ _ (by rw [driverRun_saved_length])]
      rw [driverRun_saved_length]
      rw [Nat.sub_self]
      rw [driverRun_succ]
      rfl

/-- Concrete injective test stream used by witnesses: draw i is i + 1. -/
def cStream : Nat → ℚ := fun i => (i : ℚ) + 1

/-- Concrete generator at position 0 over cStream. -/
def cRNG : RNG := ⟨cStream, 0⟩

/-- A concrete constant global seed-0 stream. -/
def gsA : Nat → ℚ := fun _ => 5

/-- A second, different concrete global seed-0 stream. -/
def gsB : Nat → ℚ := fun _ => 7

/-- sumTo over zero terms is zero. -/
lemma sumTo_zero (f : Nat → ℚ) : sumTo f 0 = 0 := rfl

/-- Peeling the last term off a sumTo. -/
lemma sumTo_succ (f : Nat → ℚ) (k : Nat) : sumTo f (k + 1) = sumTo f k + f k := by
  unfold sumTo
  rw [List.range_succ, List.map_append, List.sum_append]
  simp

/-- Closed form for partial sums of the concrete test stream read with
stride c and offset j from position p: the draws are the naturals offset
by one, so the sum is arithmetic. -/
lemma sumTo_cStream_arith (p c j : Nat) : ∀ K : Nat,
    sumTo (fun k => cStream (p + (k * c + j))) K =
      (K : ℚ) * ((p : ℚ) + (j : ℚ) + 1) +
        (c : ℚ) * ((K : ℚ) * ((K : ℚ) - 1) / 2) := by
  intro K
  induction K with
  | zero =>
    rw [sumTo_zero]
    norm_num
  | succ K ih =>
    rw [sumTo_succ, ih]
    unfold cStream
    push_cast
    ring

/-- Evaluating the block size from rational bounds on the quotient. -/
lemma blockSize_eq_of_bounds (n : Nat) (M : ℚ) (v : Nat)
    (h1 : (v : ℚ) ≤ 2 ^ 20 * M / (8 * (n : ℚ)))
    (h2 : 2 ^ 20 * M / (8 * (n : ℚ)) < (v : ℚ) + 1) :
    blockSize n M = v := by
  have hfl : ⌊2 ^ 20 * M / (8 * (n : ℚ))⌋ = (v : ℤ) := by
    rw [Int.floor_eq_iff]
    constructor
    · exact_mod_cast h1
    · push_cast
      exact h2
  unfold blockSize
  rw [hfl]
  simp

/-- The n = 2, no-detrending statistic of column j of a block of width b
drawn at stream position p, as a rational function of the two partial
sums of the active stream slice (the single usable observation is the
ratio of the cumulated sums at rows 51 and 50 of that column). -/
lemma adfStat_two_nc (p b j : Nat) :
    adfStat 2 "nc" b ⟨cStream, p⟩ j =
      sumTo (fun k => cStream (p + (k * b + j))) 51 *
          sumTo (fun k => cStream (p + (k * b + j))) 52 /
        (sumTo (fun k => cStream (p + (k * b + j))) 51 *
          sumTo (fun k => cStream (p + (k * b + j))) 51) - 1 := by
  have hy : adfXpy 2 "nc" b ⟨cStream, p⟩ j =
      sumTo (fun k => cStream (p + (k * b + j))) 51 *
        sumTo (fun k => cStream (p + (k * b + j))) 52 + 0 := rfl
  have hx : adfXpx 2 "nc" b ⟨cStream, p⟩ j =
      sumTo (fun k => cStream (p + (k * b + j))) 51 *
        sumTo (fun k => cStream (p + (k * b + j))) 51 + 0 := rfl
  have hr : ((adfLhs 2 "nc" b ⟨cStream, p⟩).rows : ℚ) = ((1 : Nat) : ℚ) := rfl
  unfold adfStat
  rw [hy, hx, hr, Nat.cast_one, one_mul, add_zero, add_zero]

/-- C1 counterexample.  The Batch Runner output is NOT independent of the
memory-budget parameter: with n = 2, trend nc, b = 2 draws and the same
seed stream, budgets inducing block sizes 1 and 2 distribute the one
random stream differently over the two replications (row-major fill), so
the returned statistic vectors differ. -/
theorem C1_budget_changes_output :
    wrapper gsA 2 "nc" 2 cStream (1 / 65536) ≠
      wrapper gsA 2 "nc" 2 cStream (2 / 65536) := by
  have hbs1 : blockSize 2 (1 / 65536) = 1 :=
    blockSize_eq_of_bounds 2 (1 / 65536) 1 (by push_cast; norm_num)
      (by push_cast; norm_num)
  have hbs2 : blockSize 2 (2 / 65536) = 2 :=
    blockSize_eq_of_bounds 2 (2 / 65536) 2 (by push_cast; norm_num)
      (by push_cast; norm_num)
  have e1 : wrapper gsA 2 "nc" 2 cStream (1 / 65536) =
      [adfStat 2 "nc" 1 ⟨cStream, 0⟩ 0, adfStat 2 "nc" 1 ⟨cStream, 52⟩ 0] := by
    unfold wrapper
    rw [hbs1]
    rfl
  have e2 : wrapper gsA 2 "nc" 2 cStream (2 / 65536) =
      [adfStat 2 "nc" 2 ⟨cStream, 0⟩ 0, adfStat 2 "nc" 2 ⟨cStream, 0⟩ 1] := by
    unfold wrapper
    rw [hbs2]
    rfl
  have v1 : adfStat 2 "nc" 1 ⟨cStream, 0⟩ 0 = 2 / 51 := by
    rw [adfStat_two_nc]
    simp only [sumTo_cStream_arith]
    norm_num
  have v2 : adfStat 2 "nc" 1 ⟨cStream, 52⟩ 0 = 4 / 153 := by
    rw [adfStat_two_nc]
    simp only [sumTo_cStream_arith]
    norm_num
  have v3 : adfStat 2 "nc" 2 ⟨cStream, 0⟩ 0 = 103 / 2601 := by
    rw [adfStat_two_nc]
    simp only [sumTo_cStream_arith]
    norm_num
  have v4 : adfStat 2 "nc" 2 ⟨cStream, 0⟩ 1 = 2 / 51 := by
    rw [adfStat_two_nc]
    simp only [sumTo_cStream_arith]
    norm_num
  rw [e1, e2, v1, v2, v3, v4]
  intro hcontra
  simp only [List.cons.injEq] at hcontra
  exact absurd hcontra.1 (by norm_num)

/-- C1 (amended).  The Batch Runner output is unchanged whenever the two
memory budgets induce the same internal block size; the budget influences
the result only through the block size. -/
theorem C1_same_blockSize_same_output (gs : Nat → ℚ) (n : Nat) (trend : String)
    (b : Nat) (stream : Nat → ℚ) (M M2 : ℚ) (h : blockSize n M = blockSize n M2) :
    wrapper gs n trend b stream M = wrapper gs n trend b stream M2 := by
  unfold wrapper
  rw [h]

/-- C1 witness: two distinct budgets with equal block size give equal
output. -/
theorem C1_same_blockSize_same_output_witness :
    blockSize 2 (1 / 65536) = blockSize 2 (3 / 131072) ∧
      wrapper gsA 2 "nc" 2 cStream (1 / 65536) =
        wrapper gsA 2 "nc" 2 cStream (3 / 131072) := by
  have hbs1 : blockSize 2 (1 / 65536) = 1 :=
    blockSize_eq_of_bounds 2 (1 / 65536) 1 (by push_cast; norm_num)
      (by push_cast; norm_num)
  have hbs3 : blockSize 2 (3 / 131072) = 1 :=
    blockSize_eq_of_bounds 2 (3 / 131072) 1 (by push_cast; norm_num)
      (by push_cast; norm_num)
  exact ⟨hbs1.trans hbs3.symm,
    C1_same_blockSize_same_output gsA 2 "nc" 2 cStream _ _ (hbs1.trans hbs3.symm)⟩

/-- C2 counterexample.  Seed positions are NOT unique to the triple
(trend, length index, replication index): with an injective master list
the unit for trend nc, length 2000, replication 3 receives the very same
seed as the unit for trend ctt, length 20, replication 3, although the
cells differ. -/
theorem C2_seed_position_reused :
    (submittedUnit 2000 "nc" [10, 11, 12, 13] 3).2.2.2 =
        (submittedUnit 20 "ctt" [10, 11, 12, 13] 3).2.2.2 ∧
      ¬ ((2000 : Nat) = 20 ∧ ("nc" : String) = "ctt") := by
  constructor
  · rfl
  · rintro ⟨h, -⟩
    omega

/-- getD of a replicate below its length is the replicated element. -/
lemma getD_replicate_of_lt {α : Type} (a d : α) {n r : Nat} (h : r < n) :
    (List.replicate n a).getD r d = a := by
  rw [List.getD_eq_getElem _ _ (by simpa using h)]
  simp

/-- C2 (amended).  The seed handed to the unit of work for replication r
of any cell is the master sequence entry at position r: the position
depends only on the replication index, so the same master positions are
reused by every (trend, length) cell, while replications within one cell
do get distinct positions. -/
theorem C2_seed_position_is_replication_index (t : Nat) (tr : String)
    (master : List Nat) (r : Nat) (hr : r < EX_NUM) :
    submittedUnit t tr master r = (t, tr, EX_SIZE, master.getD r 0) := by
  unfold submittedUnit
  rw [getD_replicate_of_lt _ _ hr, getD_replicate_of_lt _ _ hr,
    getD_replicate_of_lt _ _ hr]

/-- C2 witness at a concrete replication index. -/
theorem C2_seed_position_is_replication_index_witness :
    3 < EX_NUM ∧
      submittedUnit 2000 "nc" [10, 11, 12, 13] 3 =
        (2000, "nc", EX_SIZE, ([10, 11, 12, 13] : List Nat).getD 3 0) :=
  ⟨by decide,
    C2_seed_position_is_replication_index 2000 "nc" [10, 11, 12, 13] 3 (by decide)⟩

/-- C3 counterexample.  A malformed trend specification is not rejected:
adf_simulation with trend zz and valid n = 5, b = 2 proceeds normally,
returning both statistics, identical to the no-detrending output, instead
of failing fast with an invalid-argument error. -/
theorem C3_invalid_trend_proceeds :
    (adf_simulation 5 "zz" 2 cRNG).1.length = 2 ∧
      (adf_simulation 5 "zz" 2 cRNG).1 = (adf_simulation 5 "nc" 2 cRNG).1 :=
  ⟨rfl, rfl⟩

/-- C3 (amended).  The boundary performs no trend validation: for every
valid sample length (n at least 1) a call with any trend string,
malformed ones included, proceeds and returns the full vector of b
statistics rather than being rejected.  (Calls with n = 0 do die in the
source, but with incidental numpy ValueError / ZeroDivisionError raised
mid-computation, not with a validation check; they are outside this
embedding and this statement.) -/
theorem C3_no_rejection (n : Nat) (trend : String) (b : Nat) (g : RNG)
    (hn : 1 ≤ n) : (adf_simulation n trend b g).1.length = b := by
  unfold adf_simulation
  rw [List.length_map, List.length_range]

/-- C3 witness: the malformed-trend call of the counterexample returns
both requested statistics. -/
theorem C3_no_rejection_witness :
    1 ≤ 5 ∧ (adf_simulation 5 "zz" 2 cRNG).1.length = 2 :=
  ⟨by decide, C3_no_rejection 5 "zz" 2 cRNG (by decide)⟩

/-- C4.  Each returned statistic equals nobs * (cov(lag, lead) / var(lag)
- 1) where cov and var are the raw non-centered cross-products of the
possibly residualized series summed over the time axis and nobs is the
residualized series length. -/
theorem C4_statistic_formula (n : Nat) (trend : String) (b : Nat) (g : RNG) (j : Nat)
    (hn : 1 ≤ n) (ht : trend ∈ trends) (hj : j < b) :
    (adf_simulation n trend b g).1.getD j 0 =
      ((adfLhs n trend b g).rows : ℚ) *
        (adfXpy n trend b g j / adfXpx n trend b g j - 1) := by
  unfold adf_simulation
  rw [List.getD_eq_getElem _ _ (by simpa using hj)]
  rw [List.getElem_map, List.getElem_range]
  rfl

/-- C4 witness at n = 5, trend c, b = 1. -/
theorem C4_statistic_formula_witness :
    1 ≤ 5 ∧ "c" ∈ trends ∧ 0 < 1 ∧
      (adf_simulation 5 "c" 1 cRNG).1.getD 0 0 =
        ((adfLhs 5 "c" 1 cRNG).rows : ℚ) *
          (adfXpy 5 "c" 1 cRNG 0 / adfXpx 5 "c" 1 cRNG 0 - 1) :=
  ⟨by decide, by decide, by decide,
    C4_statistic_formula 5 "c" 1 cRNG 0 (by decide) (by decide) (by decide)⟩

/-- C5 counterexample.  The drawn standard-normal matrix has n + 50 rows,
not n - 1 + 50 as claimed: at n = 3 the code draws 53 rows. -/
theorem C5_draw_shape_not_claimed :
    (adfDraw 3 1 cRNG).rows = 3 + 50 ∧ 3 + 50 ≠ 3 - 1 + 50 :=
  ⟨rfl, by decide⟩

/-- C5 (amended).  The generator draws an (n + 50, b) matrix, cumsums it
along the time axis, discards the first 50 rows leaving length-n paths,
and the aligned left-hand (index 1 onward) and lagged right-hand series
each have exactly n - 1 usable observations per column. -/
theorem C5_shapes (n b : Nat) (g : RNG) (hn : 1 ≤ n) :
    (adfDraw n b g).rows = n + 50 ∧ (adfDraw n b g).cols = b ∧
      (adfPath n b g).rows = n ∧ (adfPath n b g).cols = b ∧
      (adfLhs0 n b g).rows = n - 1 ∧ (adfLhs0 n b g).cols = b ∧
      (adfRhs0 n b g).rows = n - 1 ∧ (adfRhs0 n b g).cols = b := by
  refine ⟨rfl, rfl, ?_, rfl, ?_, rfl, ?_, rfl⟩
  · show n + 50 - 50 = n
    omega
  · show n + 50 - 50 - 1 = n - 1
    omega
  · show n + 50 - 50 - 1 = n - 1
    omega

/-- C5 witness at n = 3, b = 1. -/
theorem C5_shapes_witness :
    1 ≤ 3 ∧
      ((adfDraw 3 1 cRNG).rows = 3 + 50 ∧ (adfDraw 3 1 cRNG).cols = 1 ∧
        (adfPath 3 1 cRNG).rows = 3 ∧ (adfPath 3 1 cRNG).cols = 1 ∧
        (adfLhs0 3 1 cRNG).rows = 3 - 1 ∧ (adfLhs0 3 1 cRNG).cols = 1 ∧
        (adfRhs0 3 1 cRNG).rows = 3 - 1 ∧ (adfRhs0 3 1 cRNG).cols = 1) :=
  ⟨by decide, C5_shapes 3 1 cRNG (by decide)⟩

/-- C6.  Invariant of the driver loop for one trend: after k completed
sample lengths, every cell of every completed length slice is populated
(not the sentinel), every not-yet-processed length slice is still
entirely the sentinel (k = 0 gives the all-sentinel initial table), one
checkpoint has been persisted per completed length, and the checkpoint
written after completing length index j equals the table state at that
moment. -/
theorem C6_results_table_invariant (out : Nat → Nat → List ℚ) (k : Nat)
    (hk : k ≤ numLengths) :
    (∀ p i r, p < numPercentiles → r < EX_NUM → i < k →
        ((driverRun out k).1 p i r).isSome = true) ∧
      (∀ p i r, k ≤ i → (driverRun out k).1 p i r = none) ∧
      (driverRun out k).2.length = k ∧
      (∀ j, j < k →
        (driverRun out k).2.getD j resultsInit = (driverRun out (j + 1)).1) :=
  ⟨fun p i r hp hr hik => driverRun_populated out k p i r hp hr hik,
   fun p i r hik => driverRun_sentinel out k i hik p r,
   driverRun_saved_length out k,
   fun j hj => driverRun_saved_getD out k j hj⟩

set_option maxRecDepth 8000 in
/-- C6 witness after one completed length with a tiny pool result. -/
theorem C6_results_table_invariant_witness :
    1 ≤ numLengths ∧
      ((driverRun (fun _ _ => [1]) 1).1 0 0 0).isSome = true ∧
      (driverRun (fun _ _ => [1]) 1).1 0 1 0 = none ∧
      (driverRun (fun _ _ => [1]) 1).2.length = 1 ∧
      (driverRun (fun _ _ => [1]) 1).2.getD 0 resultsInit =
        (driverRun (fun _ _ => [1]) (0 + 1)).1 :=
  ⟨by decide,
   (C6_results_table_invariant (fun _ _ => [1]) 1 (by decide)).1 0 0 0
     (by decide) (by decide) (by decide),
   (C6_results_table_invariant (fun _ _ => [1]) 1 (by decide)).2.1 0 1 0 (by decide),
   (C6_results_table_invariant (fun _ _ => [1]) 1 (by decide)).2.2.1,
   (C6_results_table_invariant (fun _ _ => [1]) 1 (by decide)).2.2.2 0 (by decide)⟩

/-- C7.  clear_cache fails its precondition check when work is
outstanding on the pool, and purges every retained container when no work
is outstanding. -/
theorem C7_clear_cache_guard (c : ClientState) (v : ViewState) :
    (c.outstanding ≠ [] → clear_cache c v = none) ∧
      (c.outstanding = [] →
        clear_cache c v = some
          ({ outstanding := c.outstanding, controllerResults := [], results := [],
             metadata := [], history := [], digestHistory := [] },
           { results := [], history := [] })) := by
  constructor
  · intro h
    unfold clear_cache
    rw [if_neg h]
  · intro h
    unfold clear_cache
    rw [if_pos h]

/-- C7 witness: one outstanding task blocks the purge; an idle pool is
purged. -/
theorem C7_clear_cache_guard_witness :
    clear_cache ⟨[5], [(1, 2)], [(2, 3)], [(4, 5)], [7], [8]⟩ ⟨[(0, 1)], [9]⟩ = none ∧
      clear_cache ⟨[], [(1, 2)], [(2, 3)], [(4, 5)], [7], [8]⟩ ⟨[(0, 1)], [9]⟩ =
        some (⟨[], [], [], [], [], []⟩, ⟨[], []⟩) :=
  ⟨(C7_clear_cache_guard _ _).1 (by simp), (C7_clear_cache_guard _ _).2 rfl⟩

/-- C8.  The percentile reduction is monotone in the requested level, so
any increasing grid of levels yields a non-decreasing value sequence. -/
theorem C8_percentile_monotone (x : List ℚ) (p q : ℚ) (hx : x ≠ [])
    (hp : 0 ≤ p) (hpq : p ≤ q) (hq : q ≤ 100) :
    percentile x p ≤ percentile x q :=
  percentile_mono x hx hp hpq hq

/-- C8 witness on the levels 0.5 and 50 for a concrete draw vector. -/
theorem C8_percentile_monotone_witness :
    (([3, 1, 2] : List ℚ) ≠ []) ∧ (0 : ℚ) ≤ 1 / 2 ∧ (1 / 2 : ℚ) ≤ 50 ∧
      (50 : ℚ) ≤ 100 ∧ percentile [3, 1, 2] (1 / 2) ≤ percentile [3, 1, 2] 50 :=
  ⟨by simp, by norm_num, by norm_num, by norm_num,
    C8_percentile_monotone [3, 1, 2] (1 / 2) 50 (by simp) (by norm_num)
      (by norm_num) (by norm_num)⟩

/-- C9.  Any trend string outside the three detrending labels leaves the
regressor matrix empty (z stays None) and produces exactly the
no-detrending statistics. -/
theorem C9_unknown_trend_is_nc (n : Nat) (trend : String) (b : Nat) (g : RNG)
    (h1 : trend ≠ "c") (h2 : trend ≠ "ct") (h3 : trend ≠ "ctt") :
    trendZ trend (n - 1) = none ∧
      adf_simulation n trend b g = adf_simulation n "nc" b g := by
  have hz : ∀ m : Nat, trendZ trend m = none := by
    intro m
    unfold trendZ
    rw [if_neg h1, if_neg h2, if_neg h3]
  have hznc : ∀ m : Nat, trendZ "nc" m = none := by
    intro m
    rfl
  refine ⟨hz _, ?_⟩
  have hstat : adfStat n trend b g = adfStat n "nc" b g := by
    funext j
    unfold adfStat adfXpy adfXpx adfLhs adfRhs
    rw [hz, hznc]
  unfold adf_simulation
  rw [hstat]

/-- C9 witness at the malformed trend xyz. -/
theorem C9_unknown_trend_is_nc_witness :
    (("xyz" : String) ≠ "c") ∧ (("xyz" : String) ≠ "ct") ∧
      (("xyz" : String) ≠ "ctt") ∧
      (trendZ "xyz" (3 - 1) = none ∧
        adf_simulation 3 "xyz" 1 cRNG = adf_simulation 3 "nc" 1 cRNG) :=
  ⟨by decide, by decide, by decide,
    C9_unknown_trend_is_nc 3 "xyz" 1 cRNG (by decide) (by decide) (by decide)⟩

/-- C10.  The wrapper always hands its one explicitly seeded generator to
adf_simulation, so the rng = None fallback (which would reread the seed-0
global stream) is never taken: the output does not depend on the global
stream at all, and the blocks consume one continuously advancing stream,
ending after exactly (n + 50) * b draws with no reset between blocks. -/
theorem C10_wrapper_single_stream (gs gs2 : Nat → ℚ) (n : Nat) (trend : String)
    (b : Nat) (stream : Nat → ℚ) (M : ℚ) (hbs : 1 ≤ blockSize n M) :
    wrapper gs n trend b stream M = wrapper gs2 n trend b stream M ∧
      (runBlocks gs n trend (blockCounts (blockSize n M) b)
          (some ⟨stream, 0⟩)).2 = some ⟨stream, (n + 50) * b⟩ := by
  constructor
  · exact (runBlocks_threads n trend (blockCounts (blockSize n M) b) gs gs2
      ⟨stream, 0⟩).1
  · rw [(runBlocks_threads n trend (blockCounts (blockSize n M) b) gs gs
      ⟨stream, 0⟩).2]
    rw [blockCounts_sum hbs b]
    show some (RNG.mk stream (0 + (n + 50) * b)) = some (RNG.mk stream ((n + 50) * b))
    rw [Nat.zero_add]

/-- C10 witness with two different global streams. -/
theorem C10_wrapper_single_stream_witness :
    1 ≤ blockSize 2 1 ∧
      (wrapper gsA 2 "nc" 1 cStream 1 = wrapper gsB 2 "nc" 1 cStream 1 ∧
        (runBlocks gsA 2 "nc" (blockCounts (blockSize 2 1) 1)
            (some ⟨cStream, 0⟩)).2 = some ⟨cStream, (2 + 50) * 1⟩) := by
  have hbs : blockSize 2 1 = 65536 :=
    blockSize_eq_of_bounds 2 1 65536 (by push_cast; norm_num)
      (by push_cast; norm_num)
  have h1 : 1 ≤ blockSize 2 1 := by
    rw [hbs]
    omega
  exact ⟨h1, C10_wrapper_single_stream gsA gsB 2 "nc" 1 cStream 1 h1⟩

end Arch
